import Mathlib

/-!
Verification of the PostgresConnection adapter (src/src/PostgresConnection.js).

The JavaScript source is shallowly embedded: every definition below is a
direct translation of a function (or an inline code path) of the adapter.
Strings are Lean `String`s; where the SQL-rendering claims need positional
reasoning we work on `List Char` (the character sequence of a JS string).
Callback/promise results are `Except`/`Option` values; the driver's
responses to successive query attempts are supplied as an explicit list
(one entry per `connection.query` invocation).

Code that the adapter calls but that lives outside this repository's source
file (the `related-db-connection` base class and the `pg` driver's escaping
primitives) is modelled where a claim needs it; each such definition says
so in its doc comment.
-/

namespace PostgresConnection

/-- A JavaScript value, restricted to the primitives the adapter actually
passes around as bound query values / identifiers. -/
inductive JSVal where
  | str (s : String)
  | num (n : Int)
  | boolVal (b : Bool)
  | nullVal
  | undef
deriving DecidableEq, Repr

/-- JS string coercion `input + ''` for the values of `JSVal`. -/
def jsToString : JSVal → String
  | .str s => s
  | .num n => toString n
  | .boolVal b => if b then "true" else "false"
  | .nullVal => "null"
  | .undef => "undefined"

/-- A low-level driver error: the adapter only ever inspects `err.code`
(`none` models an absent `code` property); `msg` stands for the rest of the
error object, carried around unchanged. -/
structure DriverErr where
  code : Option String
  msg : String
deriving DecidableEq, Repr

/-- The errors the adapter delivers to its caller: the `RelatedError`
classes it constructs, plus `passthrough` for a driver error handed on
unchanged and `plain` for a JS `Error(message)`. -/
inductive RError where
  | invalidCredentials (e : DriverErr)
  | failedToConnect (e : DriverErr)
  | duplicateKey (e : DriverErr)
  | passthrough (e : DriverErr)
  | plain (msg : String)
deriving DecidableEq, Repr

/-- Whether a delivered error is the DuplicateKey kind. -/
def RError.isDuplicateKey : RError → Bool
  | .duplicateKey _ => true
  | _ => false

/-- Error mapping of the `connect` callback (PostgresConnection.js lines
61-67): `28P01` and the four network codes are wrapped, everything else is
handed on unchanged. -/
def translateConnectError (e : DriverErr) : RError :=
  match e.code with
  | some c =>
    if c = "28P01" then .invalidCredentials e
    else if c = "ECONNREFUSED" then .failedToConnect e
    else if c = "ENETUNREACH" then .failedToConnect e
    else if c = "ECONNRESET" then .failedToConnect e
    else if c = "EHOSTUNREACH" then .failedToConnect e
    else .passthrough e
  | none => .passthrough e

/-- Error mapping of the asynchronous `'error'` handler (lines 76-79):
only the four network codes are wrapped. -/
def translateAsyncError (e : DriverErr) : RError :=
  match e.code with
  | some c =>
    if c = "ECONNREFUSED" then .failedToConnect e
    else if c = "ENETUNREACH" then .failedToConnect e
    else if c = "ECONNRESET" then .failedToConnect e
    else if c = "EHOSTUNREACH" then .failedToConnect e
    else .passthrough e
  | none => .passthrough e

/-- Error mapping of the query callback (line 171): only the
unique-violation code `23505` is wrapped, into `DuplicateKeyError`. -/
def translateQueryError (e : DriverErr) : RError :=
  match e.code with
  | some c => if c = "23505" then .duplicateKey e else .passthrough e
  | none => .passthrough e

/-! ### Escaping primitives

The `pg` driver's `escapeLiteral` / `escapeIdentifier` are the external
literal/identifier escaping primitives the spec's §6 requires from the
driver collaborator; they are modelled here character by character from
that driver so the adapter's `escape`/`escapeId` wrappers can be stated
concretely. -/

/-- Body loop of `pg`'s `escapeLiteral`: single quotes and backslashes are
doubled, every other character is kept. -/
def escLit : List Char → List Char
  | [] => []
  | c :: cs =>
    if c = '\'' then c :: c :: escLit cs
    else if c = '\\' then c :: c :: escLit cs
    else c :: escLit cs

/-- `pg`'s `escapeLiteral` on a character sequence: the doubled body is
wrapped in single quotes, and prefixed with ` E` when the input contained a
backslash. -/
def escapeLiteralChars (s : List Char) : List Char :=
  let body := '\'' :: (escLit s ++ ['\''])
  if s.contains '\\' then ' ' :: 'E' :: body else body

/-- The adapter's `escape(input)` (lines 138-140): coerce to a string and
apply the driver's literal escaping. Returns the character sequence. -/
def escapeVal (v : JSVal) : List Char :=
  escapeLiteralChars (jsToString v).data

/-- Body loop of `pg`'s `escapeIdentifier`: double quotes are doubled. -/
def escIdChars : List Char → List Char
  | [] => []
  | c :: cs => if c = '"' then c :: c :: escIdChars cs else c :: escIdChars cs

/-- `pg`'s `escapeIdentifier`: the input with doubled double quotes,
wrapped in double quotes. -/
def escapeIdentifier (s : String) : String :=
  ⟨'"' :: (escIdChars s.data ++ ['"'])⟩

/-- `type.string` of the `ee-types` helper: true exactly for strings. -/
def typeString : JSVal → Bool
  | .str _ => true
  | _ => false

/-- The adapter's `escapeId(input)` (lines 151-155): a synchronous throw —
modelled as `Except.error` returned directly by the function, as opposed to
the promise channel of the query path — for non-string or empty input,
otherwise the driver's identifier escaping. -/
def escapeId (v : JSVal) : Except RError String :=
  match v with
  | .str s =>
    if s.length = 0 then
      .error (.plain ("Cannot escape id «" ++ s ++ "»!"))
    else .ok (escapeIdentifier s)
  | v => .error (.plain ("Cannot escape id «" ++ jsToString v ++ "»!"))

/-! ### Query execution -/

/-- A result row; the adapter never looks inside rows, it only moves them,
so their payload is an opaque tag. -/
structure Row where
  val : Nat
deriving DecidableEq, Repr

/-- A driver result object: `command` is the command tag, `rows` the
`rows` property (`none` models an absent property). -/
structure PGResult where
  command : String
  rows : Option (List Row)
deriving DecidableEq, Repr

/-- The `data` argument of the query callback: a JS plain object
(`type.object` true), the JS `null` (`type.null` true), or anything else
(undefined, arrays, primitives — both `ee-types` tests false). -/
inductive DriverData where
  | nullData
  | result (r : PGResult)
  | other
deriving DecidableEq, Repr

/-- One driver response to a `connection.query` invocation: either the
callback's error or its success data. -/
inductive DriverResponse where
  | err (e : DriverErr)
  | ok (d : DriverData)
deriving DecidableEq, Repr

/-- The value `executeQuery` resolves with: `rows` is the raw `data.rows`
of a SELECT (kept as the JS value, possibly absent), `row` the
first-row-or-null of an INSERT, `raw` an unshaped result. -/
inductive QValue where
  | rows (rs : Option (List Row))
  | row (r : Option Row)
  | raw (d : DriverData)
deriving DecidableEq, Repr

/-- The per-execution query context (`related-query-context`): SQL text,
bound values, the AST-origin flag and the optional mode tag. -/
structure QueryContext where
  sql : String
  values : List JSVal
  ast : Bool
  mode : Option String
deriving DecidableEq, Repr

/-- The `switch (data.command)` of `executeQuery` (lines 179-190): SELECT
resolves with `data.rows` as it is, INSERT with the first row when
`data.rows` is a non-empty array and with `null` otherwise, any other
command with the raw result object. -/
def shapeResult (r : PGResult) : QValue :=
  match r.command with
  | "SELECT" => .rows r.rows
  | "INSERT" =>
    .row (match r.rows with
      | some (x :: _) => some x
      | _ => none)
  | _ => .raw (.result r)

/-- The adapter's `executeQuery(queryContext, dontRetry)` (lines 167-207).
`responses` supplies the driver's reply to each successive
`connection.query` call; `none` means the driver never answered (the
promise stays pending). The branch structure mirrors the source: error
translation first, then AST passthrough, then `type.object` shaping by
command tag, then the one-shot null retry, then the unexpected-result
rejection. -/
def executeQuery (ctx : QueryContext) (dontRetry : Bool) :
    List DriverResponse → Option (Except RError QValue)
  | [] => none
  | resp :: rest =>
    match resp with
    | .err e => some (.error (translateQueryError e))
    | .ok d =>
      if ctx.ast then some (.ok (.raw d))
      else
        match d with
        | .result r => some (.ok (shapeResult r))
        | .nullData =>
          if !dontRetry then executeQuery ctx true rest
          else some (.error (.plain "unexpected return value from pg driver!"))
        | .other => some (.error (.plain "unexpected return value from pg driver!"))

/-! ### Lock manager -/

/-- What the JS property access `this.lockModes[lockType]` finds: one of
the table's own values (a mode phrase), a member inherited from the object
literal's prototype `Object.prototype` (a truthy function, or the
prototype object itself for `__proto__`), or `undefined`. -/
inductive LockLookup where
  | phrase (s : String)
  | protoMember (name : String)
  | missing
deriving DecidableEq, Repr

/-- The adapter's `lockModes` table (lines 30-33) under JS property
lookup, prototype chain included: the two own keys hold the mode phrases;
the member names of `Object.prototype` find the inherited member; every
other name yields `undefined`. -/
def lockModes : String → LockLookup
  | "LOCK_WRITE" => .phrase "SHARE ROW EXCLUSIVE"
  | "LOCK_EXCLUSIVE" => .phrase "ACCESS EXCLUSIVE"
  | "constructor" => .protoMember "constructor"
  | "hasOwnProperty" => .protoMember "hasOwnProperty"
  | "isPrototypeOf" => .protoMember "isPrototypeOf"
  | "propertyIsEnumerable" => .protoMember "propertyIsEnumerable"
  | "toLocaleString" => .protoMember "toLocaleString"
  | "toString" => .protoMember "toString"
  | "valueOf" => .protoMember "valueOf"
  | "__defineGetter__" => .protoMember "__defineGetter__"
  | "__defineSetter__" => .protoMember "__defineSetter__"
  | "__lookupGetter__" => .protoMember "__lookupGetter__"
  | "__lookupSetter__" => .protoMember "__lookupSetter__"
  | "__proto__" => .protoMember "__proto__"
  | _ => .missing

/-- JS string coercion of an inherited `Object.prototype` member, as it is
concatenated into the statement text by Node's V8 runtime: `__proto__` is
the prototype object itself and coerces as a plain object; `constructor`
is the `Object` function; the rest are native functions whose source text
V8 renders as `function <name>() { [native code] }`. -/
def protoMemberString : String → String
  | "__proto__" => "[object Object]"
  | "constructor" => "function Object() { [native code] }"
  | name => "function " ++ name ++ "() { [native code] }"

/-- JS string coercion of a truthy lookup result when concatenated into
the statement (`.missing` would coerce to `undefined`, but the falsiness
check keeps it from ever being concatenated). -/
def lookupString : LockLookup → String
  | .phrase p => p
  | .protoMember n => protoMemberString n
  | .missing => "undefined"

/-- Outcome of a `lock` call: the invalid-mode callback error (no query
issued), a statement issued through the standard query path, or a
synchronous throw escaping from `escapeId`. -/
inductive LockOutcome where
  | cbError (msg : String)
  | issued (sql : String)
  | thrown (e : RError)
deriving DecidableEq, Repr

/-- The adapter's `lock(schema, table, lockType, callback)` (lines
118-125). The check `!this.lockModes[lockType]` runs first: only an
`undefined` lookup — a name that is neither an own key nor an inherited
`Object.prototype` member — is falsy and reports through the callback
without touching the database. Any truthy lookup (a mode phrase, but also
an inherited prototype member) proceeds: the statement text is built with
`escapeId` (the schema part only when `schema` is truthy, i.e. present and
non-empty) and the coerced lookup result, and handed to the query path. -/
def lock (schema : Option String) (table : String) (lockType : String) : LockOutcome :=
  match lockModes lockType with
  | .missing => .cbError ("Invalid or not supported lock type «" ++ lockType ++ "»!")
  | lk =>
    let schemaPart : Except RError String :=
      match schema with
      | some s => if s = "" then .ok "" else (escapeId (.str s)).map (· ++ ".")
      | none => .ok ""
    match schemaPart with
    | .error e => .thrown e
    | .ok sp =>
      match escapeId (.str table) with
      | .error e => .thrown e
      | .ok t => .issued ("LOCK TABLE " ++ sp ++ t ++ " IN " ++ lookupString lk ++ " MODE;")

/-! ### Connection state, transactions, lifecycle -/

/-- The adapter-visible connection state: the base-class flags the source
reads and writes (`ended`, `killed`, `isTransaction`, `transactionOpen`),
whether the connection is still checked in to the shared pool, whether the
driver handle still exists (`delete this.connection` clears it), and the
identity of an in-flight query, if any. -/
structure ConnState where
  ended : Bool
  killed : Bool
  isTransaction : Bool
  transactionOpen : Bool
  inPool : Bool
  hasHandle : Bool
  pending : Option Nat
deriving DecidableEq, Repr

/-- The adapter's `createTransaction()` (lines 216-230): on an ended or
killed connection it rejects immediately — the returned pair keeps the
state unchanged and carries no query context, so nothing reaches the
driver. Otherwise it sets the transaction flags, detaches from the pool
(`removeFromPool`) and returns the begin-transaction context it hands to
the query path. -/
def createTransaction (c : ConnState) :
    ConnState × Except RError QueryContext :=
  if c.ended || c.killed then
    (c, .error (.plain "Cannot start transaction, the connection has ended!"))
  else
    ({ c with isTransaction := true, transactionOpen := true, inPool := false },
     .ok { sql := "start transaction;", values := [], ast := false, mode := some "transaction" })

/-- Everything the `'error'` handler (lines 74-93) causes, in one record:
the state after the event, whether `connection.end()` was invoked on the
handle, the error delivered to a pending query (through the emitted
`'error'` event the base class uses to fail the running query), and the
error emitted to the lifecycle's observers. -/
structure AsyncErrorOutcome where
  state : ConnState
  handleClosed : Bool
  pendingFailedWith : Option RError
  emittedError : RError
deriving DecidableEq, Repr

/-- The asynchronous `'error'` handler (lines 74-93). The translation
table, the forcible `connection.end()`, the `delete this.connection` and
the `'error'` emission are translated from the source. Modelled from the
spec: the base-class reactions that the source only invokes — the emitted
error fails the currently pending query (§4.1 "signal this failure ... to
any currently pending query (must fail immediately with that error)"), and
`this.end(err)` transitions the connection to Killed and drops it from the
pool (§4.1). -/
def onAsyncError (c : ConnState) (e : DriverErr) : AsyncErrorOutcome :=
  let translated := translateAsyncError e
  { state := { c with hasHandle := false, killed := true, pending := none, inPool := false }
  , handleClosed := true
  , pendingFailedWith := c.pending.map fun _ => translated
  , emittedError := translated }

/-- A query attempt on a connection. Modelled from the spec: the
base-class `query()` guard — a connection that is Ended or Killed fails
fast with a connection-ended condition and the driver is never contacted
(§7 "any attempt to query it fails fast with a 'connection ended'
condition"). A live connection forwards to the source's `executeQuery`.
The first component records whether the driver was contacted. -/
def attemptQuery (c : ConnState) (ctx : QueryContext)
    (responses : List DriverResponse) : Bool × Option (Except RError QValue) :=
  if c.ended || c.killed then
    (false, some (.error (.plain "connection ended")))
  else
    (true, executeQuery ctx false responses)

/-- An event emitted by the driver handle after a close was requested. -/
inductive HandleEvent where
  | endEvt
  | otherEvt
deriving DecidableEq, Repr

/-- Index of the first `'end'` event in the handle's event stream: the
moment `endConnection`'s `once('end', callback)` subscription fires. -/
def firstEndIndex : List HandleEvent → Option Nat
  | [] => none
  | .endEvt :: _ => some 0
  | .otherEvt :: rest => (firstEndIndex rest).map (· + 1)

/-- Outcome of an `end()` call: either the benign immediate resolution on
a killed connection (no handle contact), or a close request to the handle
that resolves at the first confirming `'end'` event (`none`: the handle
never confirmed, the promise stays pending). -/
inductive EndOutcome where
  | noopResolved
  | closeRequested (resolveAt : Option Nat)
deriving DecidableEq, Repr

/-- The graceful close. `endConnection` (lines 105-108) — subscribe
`once('end')`, then ask the handle to end — is translated from the source.
Modelled from the spec: the base-class `end()` dispatch around it — on an
already-Killed connection there is nothing to close and the call resolves
as a benign no-op without touching the handle (§4.1/§4.3 of the lifecycle
description: "Fails if the connection has already been Killed (nothing to
close) — this is a benign no-op, not an error"); otherwise the connection
transitions to Ended and the call resolves only when the handle confirms
termination. `events` is the stream the handle emits after the close
request. -/
def connEnd (c : ConnState) (events : List HandleEvent) :
    ConnState × EndOutcome :=
  if c.killed then (c, .noopResolved)
  else ({ c with ended := true }, .closeRequested (firstEndIndex events))

/-! ### SQL rendering (`renderSQLQuery`, lines 243-262)

The renderer is embedded at the character level, reproducing the JS
semantics piece by piece: the sticky regex `/\$[0-9]+/g` (`matchHead`,
`scanFind`, `findFrom`), `String.prototype.replace` with a string pattern
— first occurrence, with ECMAScript `GetSubstitution` applied to the
replacement text with zero capture groups (`indexOfList`, `getSubst`,
`replaceFirst`) — and the loop's `lastIndex` arithmetic (`renderLoop`).
The loop is driven by fuel because nothing in the source bounds it when
replacement text rewrites earlier parts of the string; the default fuel is
never exhausted on the inputs reasoned about below. -/

/-- The regex character class `[0-9]`. -/
def isDigit (c : Char) : Bool := '0' ≤ c && c ≤ '9'

/-- Length of the leading digit run. -/
def countDigits : List Char → Nat
  | [] => 0
  | c :: cs => if isDigit c then countDigits cs + 1 else 0

/-- A match of `/\$[0-9]+/` anchored at the head of the list: its length,
if it matches ('$' followed by a maximal non-empty digit run). -/
def matchHead : List Char → Option Nat
  | c :: d :: cs =>
    if c = '$' && isDigit d then some (countDigits cs + 2) else none
  | _ => none

/-- First match of the placeholder regex in a list: offset and length. -/
def scanFind : List Char → Option (Nat × Nat)
  | [] => none
  | c :: cs =>
    match matchHead (c :: cs) with
    | some len => some (0, len)
    | none => (scanFind cs).map fun p => (p.1 + 1, p.2)

/-- `reg.exec(s)` with `reg.lastIndex = p`: the first match starting at
position `p` or later. -/
def findFrom (s : List Char) (p : Nat) : Option (Nat × Nat) :=
  (scanFind (s.drop p)).map fun q => (p + q.1, q.2)

/-- `pat` is an initial segment of `s`. -/
def leadsWith : List Char → List Char → Bool
  | [], _ => true
  | _ :: _, [] => false
  | p :: ps, c :: cs => (p = c) && leadsWith ps cs

/-- `String.prototype.indexOf`: position of the first occurrence of `pat`
in `s`. -/
def indexOfList : List Char → List Char → Option Nat
  | [], pat => if pat.isEmpty then some 0 else none
  | c :: cs, pat =>
    if leadsWith pat (c :: cs) then some 0
    else (indexOfList cs pat).map (· + 1)

/-- ECMAScript `GetSubstitution` on the replacement text, with zero capture
groups (the search pattern is a plain string): `$$` yields `$`, `$&` the
matched text, a dollar before a backquote the part before the match, `$'`
the part after it; everything else — including `$` before a digit, since
there are no capture groups — is literal. (In the literal `$d` case both
characters are emitted and scanning continues after `d`; this equals the
ECMAScript rescan from `d`, because `d` is not `$` in that branch and so
cannot start a substitution pattern.) -/
def getSubst (matched before after : List Char) : List Char → List Char
  | [] => []
  | c :: cs =>
    if c = '$' then
      match cs with
      | [] => [c]
      | d :: cs' =>
        if d = '$' then '$' :: getSubst matched before after cs'
        else if d = '&' then matched ++ getSubst matched before after cs'
        else if d = Char.ofNat 96 then before ++ getSubst matched before after cs'
        else if d = '\'' then after ++ getSubst matched before after cs'
        else '$' :: d :: getSubst matched before after cs'
    else c :: getSubst matched before after cs

/-- `s.replace(pat, repl)` with a string pattern: substitute the first
occurrence of `pat`, applying `GetSubstitution` to `repl`; return `s`
unchanged when `pat` does not occur. -/
def replaceFirst (s pat repl : List Char) : List Char :=
  match indexOfList s pat with
  | none => s
  | some i =>
    s.take i ++ getSubst pat (s.take i) (s.drop (i + pat.length)) repl
      ++ s.drop (i + pat.length)

/-- The `while (match = reg.exec(sql))` loop of `renderSQLQuery`: on each
match, replace (only while `values.length > index`), then set
`reg.lastIndex` to the JS value `matchIndex + matchLength +
(escapedLength - matchLength) = matchIndex + escapedLength` — the escape
of `values[index]` is computed unconditionally, with `values[index]`
evaluating to `undefined` past the end of the array. -/
def renderLoop (values : List JSVal) :
    Nat → List Char → Nat → Nat → List Char
  | 0, s, _, _ => s
  | fuel + 1, s, lastIndex, index =>
    match findFrom s lastIndex with
    | none => s
    | some (pos, len) =>
      let matched := (s.drop pos).take len
      let esc := escapeVal (values.getD index .undef)
      let s' := if index < values.length then replaceFirst s matched esc else s
      renderLoop values fuel s' (pos + esc.length) (index + 1)

/-- The adapter's `renderSQLQuery(sql, values)` (lines 243-262) on the
character sequence of the SQL string. -/
def renderSQLQuery (sql : List Char) (values : List JSVal) : List Char :=
  renderLoop values (sql.length + 1) sql 0 0

/-- Modelled from the spec's words (§4.6), for refinement comparison with
`renderSQLQuery`: scan left to right; each placeholder encountered, in
scan order, consumes the next value and is replaced by its literal-escaped
text; once the values are exhausted the rest of the string — remaining
placeholders included — is kept untouched. -/
def specLoop : List Char → List JSVal → List Char
  | [], _ => []
  | s, [] => s
  | c :: d :: cs, v :: vs =>
    if c = '$' && isDigit d then escapeVal v ++ specLoop (cs.drop (countDigits cs)) vs
    else c :: specLoop (d :: cs) (v :: vs)
  | c :: cs, v :: vs => c :: specLoop cs (v :: vs)
termination_by s _ => s.length
decreasing_by
  · simp only [List.length_cons]
    have := List.length_drop (countDigits cs) cs
    omega
  · simp [List.length_cons]
  · simp [List.length_cons]

/-- Number of placeholder matches a full left-to-right scan finds (the
scan resumes right after each match, like the regex's `lastIndex`). -/
def countMatches : List Char → Nat
  | c :: d :: cs =>
    if c = '$' && isDigit d then countMatches (cs.drop (countDigits cs)) + 1
    else countMatches (d :: cs)
  | _ => 0
termination_by s => s.length
decreasing_by
  · simp only [List.length_cons]
    have := List.length_drop (countDigits cs) cs
    omega
  · simp [List.length_cons]

/-- A live connection with an in-flight query (id 3), for concrete
instantiations: not ended, not killed, no transaction, pooled, handle
present. -/
def sampleBusyConn : ConnState :=
  ⟨false, false, false, false, true, true, some 3⟩

/-- A killed connection, for concrete instantiations. -/
def sampleKilledConn : ConnState :=
  ⟨false, true, false, false, true, false, none⟩

/-- An idle live connection, for concrete instantiations. -/
def sampleIdleConn : ConnState :=
  ⟨false, false, false, false, true, true, none⟩

/-! ## Helper lemmas -/

theorem lockModes_write : lockModes "LOCK_WRITE" = .phrase "SHARE ROW EXCLUSIVE" := rfl

theorem lockModes_exclusive :
    lockModes "LOCK_EXCLUSIVE" = .phrase "ACCESS EXCLUSIVE" := rfl

theorem shapeResult_select (r : PGResult) (h : r.command = "SELECT") :
    shapeResult r = .rows r.rows := by
  unfold shapeResult
  rw [h]
  rfl

theorem shapeResult_insert (r : PGResult) (h : r.command = "INSERT") :
    shapeResult r = .row (match r.rows with
      | some (x :: _) => some x
      | _ => none) := by
  unfold shapeResult
  rw [h]
  rfl

theorem shapeResult_default (r : PGResult) (h1 : r.command ≠ "SELECT")
    (h2 : r.command ≠ "INSERT") : shapeResult r = .raw (.result r) := by
  unfold shapeResult
  split
  · exact absurd (by assumption) h1
  · exact absurd (by assumption) h2
  · rfl

theorem firstEndIndex_none_iff (events : List HandleEvent) :
    firstEndIndex events = none ↔ HandleEvent.endEvt ∉ events := by
  induction events with
  | nil => simp [firstEndIndex]
  | cons e rest ih =>
    cases e
    · simp [firstEndIndex]
    · simpa [firstEndIndex] using ih

theorem firstEndIndex_some (events : List HandleEvent) (i : Nat)
    (h : firstEndIndex events = some i) :
    events[i]? = some .endEvt ∧ ∀ j < i, events[j]? ≠ some .endEvt := by
  induction events generalizing i with
  | nil => simp [firstEndIndex] at h
  | cons e rest ih =>
    cases e with
    | endEvt =>
      simp only [firstEndIndex, Option.some_inj] at h
      subst h
      exact ⟨by simp, by intro j hj; omega⟩
    | otherEvt =>
      simp only [firstEndIndex, Option.map_eq_some'] at h
      obtain ⟨j, hj, rfl⟩ := h
      obtain ⟨h1, h2⟩ := ih j hj
      refine ⟨by simpa using h1, ?_⟩
      intro k hk
      cases k with
      | zero => simp
      | succ k =>
        have := h2 k (by omega)
        simpa using this

/-! ### Lemmas about the renderer's scanning primitives -/

theorem countDigits_le (cs : List Char) : countDigits cs ≤ cs.length := by
  induction cs with
  | nil => simp [countDigits]
  | cons c cs ih =>
    unfold countDigits
    by_cases h : isDigit c
    · simp only [h, if_true, List.length_cons]
      omega
    · simp [h]

theorem matchHead_some (s : List Char) (len : Nat) (h : matchHead s = some len) :
    ∃ d cs, s = '$' :: d :: cs ∧ isDigit d = true ∧ len = countDigits cs + 2 := by
  match s with
  | [] => simp [matchHead] at h
  | [c] => simp [matchHead] at h
  | c :: d :: cs =>
    unfold matchHead at h
    by_cases hc : c = '$' && isDigit d
    · simp only [hc, if_true, Option.some_inj] at h
      rcases Bool.and_eq_true_iff.mp hc with ⟨hc1, hc2⟩
      exact ⟨d, cs, by simp [decide_eq_true_iff.mp hc1], hc2, h.symm⟩
    · simp [hc] at h

theorem matchHead_two_le (s : List Char) (len : Nat) (h : matchHead s = some len) :
    2 ≤ len := by
  obtain ⟨d, cs, _, _, hlen⟩ := matchHead_some s len h
  omega

theorem matchHead_le_length (s : List Char) (len : Nat) (h : matchHead s = some len) :
    len ≤ s.length := by
  obtain ⟨d, cs, hs, _, hlen⟩ := matchHead_some s len h
  subst hs
  have := countDigits_le cs
  simp only [List.length_cons]
  omega

theorem matchHead_cons_ne_dollar (c : Char) (l : List Char) (h : ¬ c = '$') :
    matchHead (c :: l) = none := by
  match l with
  | [] => rfl
  | d :: l' => simp [matchHead, h]

theorem matchHead_cons₂ (c d : Char) (cs : List Char) :
    matchHead (c :: d :: cs)
      = if c = '$' && isDigit d then some (countDigits cs + 2) else none := rfl

/-- `matchHead` only looks at the first two characters of the list. -/
theorem matchHead_none_iff (s : List Char) :
    matchHead s = none
      ↔ ¬(s[0]? = some '$' ∧ ∃ d, s[1]? = some d ∧ isDigit d = true) := by
  match s with
  | [] => simp [matchHead]
  | [c] => simp [matchHead]
  | c :: d :: cs =>
    rw [matchHead_cons₂]
    by_cases hc : c = '$' && isDigit d
    · rcases Bool.and_eq_true_iff.mp hc with ⟨hc1, hc2⟩
      simp [hc, decide_eq_true_iff.mp hc1, hc2]
    · rw [Bool.and_eq_true_iff] at hc
      push_neg at hc
      simp only [if_neg, List.getElem?_cons_zero, List.getElem?_cons_succ, Option.some_inj]
      constructor
      · rintro _ ⟨h1, d', h2, h3⟩
        subst h1
        subst h2
        exact absurd h3 (by simpa using hc (by simp))
      · intro _
        by_cases h : c = '$' && isDigit d
        · exact absurd h (by simp [Bool.and_eq_true_iff]; intro h1; simpa using hc (by simpa using h1))
        · simp [h]

theorem scanFind_none (s : List Char) (h : scanFind s = none) :
    ∀ j, matchHead (s.drop j) = none := by
  induction s with
  | nil => intro j; simp [matchHead]
  | cons c cs ih =>
    intro j
    unfold scanFind at h
    cases hm : matchHead (c :: cs) with
    | some len => rw [hm] at h; exact absurd h (by simp)
    | none =>
      rw [hm] at h
      simp only [Option.map_eq_none'] at h
      cases j with
      | zero => simpa using hm
      | succ j => simpa using ih h j

theorem scanFind_some (s : List Char) (i len : Nat) (h : scanFind s = some (i, len)) :
    matchHead (s.drop i) = some len ∧ ∀ j < i, matchHead (s.drop j) = none := by
  induction s generalizing i with
  | nil => simp [scanFind] at h
  | cons c cs ih =>
    unfold scanFind at h
    cases hm : matchHead (c :: cs) with
    | some l =>
      rw [hm] at h
      simp only [Option.some_inj, Prod.mk.injEq] at h
      obtain ⟨rfl, rfl⟩ := h
      exact ⟨by simpa using hm, by intro j hj; omega⟩
    | none =>
      rw [hm] at h
      simp only [Option.map_eq_some'] at h
      obtain ⟨⟨i', len'⟩, hp, heq⟩ := h
      simp only [Prod.mk.injEq] at heq
      obtain ⟨rfl, rfl⟩ := heq
      obtain ⟨h1, h2⟩ := ih i' hp
      refine ⟨by simpa using h1, ?_⟩
      intro j hj
      cases j with
      | zero => simpa using hm
      | succ j => simpa using h2 j (by omega)

theorem findFrom_none (s : List Char) (p : Nat) (h : findFrom s p = none) :
    ∀ q, p ≤ q → matchHead (s.drop q) = none := by
  intro q hq
  unfold findFrom at h
  simp only [Option.map_eq_none'] at h
  have := scanFind_none _ h (q - p)
  rw [List.drop_drop, show p + (q - p) = q from by omega] at this
  exact this

theorem findFrom_some (s : List Char) (p pos len : Nat)
    (h : findFrom s p = some (pos, len)) :
    p ≤ pos ∧ matchHead (s.drop pos) = some len ∧
      ∀ q, p ≤ q → q < pos → matchHead (s.drop q) = none := by
  unfold findFrom at h
  simp only [Option.map_eq_some'] at h
  obtain ⟨⟨i, l⟩, hp, heq⟩ := h
  simp only [Prod.mk.injEq] at heq
  obtain ⟨rfl, rfl⟩ := heq
  obtain ⟨h1, h2⟩ := scanFind_some _ _ _ hp
  rw [List.drop_drop] at h1
  refine ⟨by omega, h1, ?_⟩
  intro q hq1 hq2
  have := h2 (q - p) (by omega)
  rw [List.drop_drop, show p + (q - p) = q from by omega] at this
  exact this

/-! ### Lemmas about occurrence search and substitution -/

theorem leadsWith_take (n : Nat) (s : List Char) : leadsWith (s.take n) s = true := by
  induction s generalizing n with
  | nil => cases n <;> rfl
  | cons c cs ih =>
    cases n with
    | zero => rfl
    | succ n => simpa [leadsWith] using ih n

/-- An occurrence of a text that begins like a placeholder is itself the
start of a placeholder match. -/
theorem matchHead_isSome_of_leadsWith (d : Char) (tl t : List Char)
    (hd : isDigit d = true) (h : leadsWith ('$' :: d :: tl) t = true) :
    matchHead t ≠ none := by
  match t with
  | [] => simp [leadsWith] at h
  | [c] =>
    simp only [leadsWith, Bool.and_eq_true, decide_eq_true_iff] at h
    exact absurd h.2 (by simp [leadsWith])
  | c :: e :: t' =>
    simp only [leadsWith, Bool.and_eq_true, decide_eq_true_iff] at h
    obtain ⟨rfl, rfl, -⟩ := h
    rw [matchHead_cons₂]
    simp [hd]

theorem indexOfList_first (s pat : List Char) (pos : Nat)
    (hocc : leadsWith pat (s.drop pos) = true)
    (hbef : ∀ j, j < pos → leadsWith pat (s.drop j) = false) :
    indexOfList s pat = some pos := by
  induction s generalizing pos with
  | nil =>
    have hpat : pat = [] := by
      cases pat with
      | nil => rfl
      | cons p ps => simp [List.drop_nil, leadsWith] at hocc
    subst hpat
    have hpos : pos = 0 := by
      by_contra hne
      have := hbef 0 (by omega)
      simp [leadsWith] at this
    subst hpos
    rfl
  | cons c cs ih =>
    cases pos with
    | zero =>
      unfold indexOfList
      rw [List.drop_zero] at hocc
      rw [hocc]
      rfl
    | succ pos =>
      unfold indexOfList
      have h0 : leadsWith pat (c :: cs) = false := by simpa using hbef 0 (by omega)
      rw [h0]
      simp only [Bool.false_eq_true, if_false]
      have := ih pos (by simpa using hocc) (fun j hj => by simpa using hbef (j + 1) (by omega))
      rw [this]
      rfl

theorem getSubst_no_dollar (m b a repl : List Char) (h : '$' ∉ repl) :
    getSubst m b a repl = repl := by
  induction repl with
  | nil => simp [getSubst]
  | cons c cs ih =>
    have hc : ¬ c = '$' := fun hq => h (hq ▸ List.mem_cons_self c cs)
    unfold getSubst
    rw [if_neg hc]
    rw [ih (fun hm => h (List.mem_cons_of_mem c hm))]

theorem replaceFirst_at (s pat repl : List Char) (pos : Nat)
    (hocc : leadsWith pat (s.drop pos) = true)
    (hbef : ∀ j, j < pos → leadsWith pat (s.drop j) = false) :
    replaceFirst s pat repl
      = s.take pos ++ getSubst pat (s.take pos) (s.drop (pos + pat.length)) repl
          ++ s.drop (pos + pat.length) := by
  unfold replaceFirst
  rw [indexOfList_first s pat pos hocc hbef]

/-- Every escape the renderer inserts starts with a quote or a space —
never with a digit and never with a dollar. -/
theorem escapeVal_head (v : JSVal) :
    ∃ c t, escapeVal v = c :: t ∧ isDigit c = false ∧ ¬ c = '$' := by
  unfold escapeVal escapeLiteralChars
  by_cases h : '\\' ∈ (jsToString v).data
  · refine ⟨' ', 'E' :: '\'' :: (escLit (jsToString v).data ++ ['\'']), ?_, by decide, by decide⟩
    simp [h]
  · refine ⟨'\'', escLit (jsToString v).data ++ ['\''], ?_, by decide, by decide⟩
    simp [h]

/-! ### Lemmas about the renderer loop and the specification renderer -/

theorem renderLoop_out (values : List JSVal) (fuel : Nat) :
    ∀ s lastIndex index, values.length ≤ index →
      renderLoop values fuel s lastIndex index = s := by
  induction fuel with
  | zero => intro s lastIndex index _; rfl
  | succ fuel ih =>
    intro s lastIndex index h
    unfold renderLoop
    cases hf : findFrom s lastIndex with
    | none => rfl
    | some pl =>
      obtain ⟨pos, len⟩ := pl
      have : ¬ index < values.length := by omega
      simp only [this, if_false]
      exact ih s _ (index + 1) (by omega)

theorem specLoop_nil_vals (s : List Char) : specLoop s [] = s := by
  cases s <;> simp [specLoop]

theorem specLoop_cons_nomatch (c : Char) (cs : List Char) (v : JSVal) (vs : List JSVal)
    (h : matchHead (c :: cs) = none) :
    specLoop (c :: cs) (v :: vs) = c :: specLoop cs (v :: vs) := by
  match cs with
  | [] => simp [specLoop]
  | d :: cs' =>
    rw [matchHead_cons₂] at h
    have hcond : ¬ (c = '$' && isDigit d) = true := by
      intro hc
      rw [if_pos hc] at h
      exact absurd h (by simp)
    conv_lhs => rw [specLoop]
    rw [if_neg hcond]

theorem specLoop_cons_match (s : List Char) (len : Nat) (v : JSVal) (vs : List JSVal)
    (h : matchHead s = some len) :
    specLoop s (v :: vs) = escapeVal v ++ specLoop (s.drop len) vs := by
  obtain ⟨d, cs, rfl, hd, rfl⟩ := matchHead_some s len h
  conv_lhs => rw [specLoop]
  rw [if_pos (by simp [hd])]
  rfl

theorem specLoop_of_scanFind_none (s : List Char) (vs : List JSVal)
    (h : scanFind s = none) : specLoop s vs = s := by
  induction s generalizing vs with
  | nil => cases vs <;> simp [specLoop]
  | cons c cs ih =>
    cases vs with
    | nil => exact specLoop_nil_vals _
    | cons v vs =>
      unfold scanFind at h
      cases hm : matchHead (c :: cs) with
      | some len => rw [hm] at h; exact absurd h (by simp)
      | none =>
        rw [hm] at h
        simp only [Option.map_eq_none'] at h
        rw [specLoop_cons_nomatch c cs v vs hm, ih _ h]

theorem specLoop_advance (k : Nat) (s : List Char) (len : Nat) (v : JSVal)
    (vs : List JSVal)
    (hbef : ∀ j, j < k → matchHead (s.drop j) = none)
    (hm : matchHead (s.drop k) = some len) :
    specLoop s (v :: vs)
      = s.take k ++ (escapeVal v ++ specLoop ((s.drop k).drop len) vs) := by
  induction k generalizing s with
  | zero =>
    rw [List.drop_zero] at hm ⊢
    simpa using specLoop_cons_match s len v vs hm
  | succ k ih =>
    match s with
    | [] => simp [matchHead] at hm
    | c :: cs =>
      have h0 : matchHead (c :: cs) = none := by simpa using hbef 0 (by omega)
      rw [specLoop_cons_nomatch c cs v vs h0]
      have := ih cs (fun j hj => by simpa using hbef (j + 1) (by omega)) (by simpa using hm)
      rw [this]
      rfl

/-- Elements of the string after one substitution step. `s'` is the string
with `esc` substituted for the `len` characters at `pos`. -/
theorem subst_getElem_left (s esc : List Char) (pos len i : Nat)
    (hlen : pos + len ≤ s.length) (hi : i < pos) :
    (s.take pos ++ (esc ++ s.drop (pos + len)))[i]? = s[i]? := by
  have hpos : pos ≤ s.length := by omega
  rw [List.getElem?_append_left (by rw [List.length_take_of_le hpos]; omega)]
  exact List.getElem?_take_of_lt hi

theorem subst_getElem_mid (s esc : List Char) (pos len i : Nat)
    (hlen : pos + len ≤ s.length) (h1 : pos ≤ i) (h2 : i < pos + esc.length) :
    (s.take pos ++ (esc ++ s.drop (pos + len)))[i]? = esc[i - pos]? := by
  have hpos : pos ≤ s.length := by omega
  rw [List.getElem?_append_right (by rw [List.length_take_of_le hpos]; omega)]
  rw [List.length_take_of_le hpos]
  exact List.getElem?_append_left (by omega)

/-- The invariant `no placeholder match starts before the scan position`
is preserved by a substitution step whose replacement text contains no
dollar and starts with a non-digit. -/
theorem inv_step (s esc : List Char) (lastIndex pos len : Nat)
    (hINV : ∀ q, q < lastIndex → matchHead (s.drop q) = none)
    (hgap : ∀ q, lastIndex ≤ q → q < pos → matchHead (s.drop q) = none)
    (hlen : pos + len ≤ s.length)
    (hescD : '$' ∉ esc)
    (hescHead : ∃ c t, esc = c :: t ∧ isDigit c = false ∧ ¬ c = '$') :
    ∀ q, q < pos + esc.length →
      matchHead ((s.take pos ++ (esc ++ s.drop (pos + len))).drop q) = none := by
  intro q hq
  have hbefore : ∀ r, r < pos → matchHead (s.drop r) = none := by
    intro r hr
    rcases Nat.lt_or_ge r lastIndex with h | h
    · exact hINV r h
    · exact hgap r h hr
  rw [matchHead_none_iff]
  rintro ⟨h0, dch, h1, hdig⟩
  rw [List.getElem?_drop] at h0 h1
  rcases Nat.lt_or_ge q pos with hqp | hqp
  · rw [Nat.add_zero] at h0
    rw [subst_getElem_left s esc pos len q hlen hqp] at h0
    rcases Nat.lt_or_ge (q + 1) pos with hq1 | hq1
    · rw [subst_getElem_left s esc pos len (q + 1) hlen hq1] at h1
      have hnone := hbefore q hqp
      rw [matchHead_none_iff] at hnone
      apply hnone
      refine ⟨?_, dch, ?_, hdig⟩
      · rw [List.getElem?_drop, Nat.add_zero]
        exact h0
      · rw [List.getElem?_drop]
        exact h1
    · have hq1' : q + 1 = pos := by omega
      obtain ⟨c, t, hesc, hcd, hcdol⟩ := hescHead
      rw [subst_getElem_mid s esc pos len (q + 1) hlen (by omega) (by rw [hesc]; simp; omega)]
        at h1
      rw [hq1', Nat.sub_self, hesc] at h1
      simp only [List.getElem?_cons_zero, Option.some_inj] at h1
      subst h1
      exact absurd hdig (by simp [hcd])
  · rw [Nat.add_zero] at h0
    rw [subst_getElem_mid s esc pos len q hlen hqp hq] at h0
    exact hescD (List.getElem?_mem h0)

/-- The heart of the rendering claim: as long as no escaped value contains
a dollar sign, the source's `lastIndex`-adjusting replace loop agrees with
the specification's scan-order substitution, whatever the starting scan
state — the processed prefix (before `lastIndex`, where no placeholder
match starts) is kept, the rest is substituted in scan order. -/
theorem renderLoop_eq_specLoop (values : List JSVal)
    (hvals : ∀ v ∈ values, '$' ∉ escapeVal v) :
    ∀ fuel s lastIndex index,
      (∀ q, q < lastIndex → matchHead (s.drop q) = none) →
      lastIndex ≤ s.length →
      s.length - lastIndex < fuel →
      renderLoop values fuel s lastIndex index
        = s.take lastIndex ++ specLoop (s.drop lastIndex) (values.drop index) := by
  intro fuel
  induction fuel with
  | zero => intro s lastIndex index _ _ hfuel; omega
  | succ fuel ih =>
    intro s lastIndex index hINV hle hfuel
    cases hf : findFrom s lastIndex with
    | none =>
      have hL : renderLoop values (fuel + 1) s lastIndex index = s := by
        rw [renderLoop, hf]
      have hsc : scanFind (s.drop lastIndex) = none := by
        unfold findFrom at hf
        exact Option.map_eq_none'.mp hf
      rw [hL, specLoop_of_scanFind_none _ _ hsc, List.take_append_drop]
    | some pl =>
      obtain ⟨pos, len⟩ := pl
      obtain ⟨hlp, hm, hgap⟩ := findFrom_some s lastIndex pos len hf
      obtain ⟨d, cs, hdropeq, hd, hleneq⟩ := matchHead_some _ _ hm
      have hlen2 : 2 ≤ len := by
        have := countDigits_le cs
        omega
      have hposlt : pos < s.length := by
        have hlcs : (s.drop pos).length = cs.length + 2 := by rw [hdropeq]; simp
        rw [List.length_drop] at hlcs
        omega
      have hpl : pos + len ≤ s.length := by
        have := matchHead_le_length _ _ hm
        rw [List.length_drop] at this
        omega
      have hL : renderLoop values (fuel + 1) s lastIndex index
          = renderLoop values fuel
              (if index < values.length
                then replaceFirst s ((s.drop pos).take len)
                  (escapeVal (values.getD index JSVal.undef))
                else s)
              (pos + (escapeVal (values.getD index JSVal.undef)).length)
              (index + 1) := by
        rw [renderLoop, hf]
      rw [hL]
      by_cases hidx : index < values.length
      · rw [if_pos hidx]
        have hvmem : values.getD index JSVal.undef ∈ values := by
          rw [List.getD_eq_getElem values JSVal.undef hidx]
          exact List.getElem_mem hidx
        set esc := escapeVal (values.getD index JSVal.undef) with hescdef
        set matched := (s.drop pos).take len with hmdef
        have hescD : '$' ∉ esc := hvals _ hvmem
        obtain ⟨ec, et, hesc, hecd, hecdol⟩ :=
          escapeVal_head (values.getD index JSVal.undef)
        have hmatched : matched = '$' :: d :: cs.take (countDigits cs) := by
          rw [hmdef, hdropeq, hleneq]
          rfl
        have hmlen : matched.length = len := by
          rw [hmdef, List.length_take, List.length_drop]
          omega
        have hocc : leadsWith matched (s.drop pos) = true := by
          rw [hmdef]
          exact leadsWith_take len _
        have hbefw : ∀ j, j < pos → leadsWith matched (s.drop j) = false := by
          intro j hj
          cases hx : leadsWith matched (s.drop j) with
          | false => rfl
          | true =>
            have hne : matchHead (s.drop j) ≠ none := by
              apply matchHead_isSome_of_leadsWith d (cs.take (countDigits cs)) _ hd
              rw [← hmatched]
              exact hx
            rcases Nat.lt_or_ge j lastIndex with hjl | hjl
            · exact absurd (hINV j hjl) hne
            · exact absurd (hgap j hjl hj) hne
        have hrepl : replaceFirst s matched esc
            = s.take pos ++ (esc ++ s.drop (pos + len)) := by
          rw [replaceFirst_at s matched esc pos hocc hbefw, hmlen,
            getSubst_no_dollar _ _ _ _ hescD, List.append_assoc]
        rw [hrepl]
        have hINV' : ∀ q, q < pos + esc.length →
            matchHead ((s.take pos ++ (esc ++ s.drop (pos + len))).drop q) = none :=
          inv_step s esc lastIndex pos len hINV hgap hpl hescD
            ⟨ec, et, hesc, hecd, hecdol⟩
        have hlen_s2 : (s.take pos ++ (esc ++ s.drop (pos + len))).length
            = pos + esc.length + (s.length - (pos + len)) := by
          simp only [List.length_append, List.length_take, List.length_drop]
          omega
        rw [ih _ (pos + esc.length) (index + 1) hINV' (by omega) (by omega)]
        have hlen_take : (s.take pos ++ esc).length = pos + esc.length := by
          simp only [List.length_append, List.length_take]
          omega
        have htake2 : (s.take pos ++ (esc ++ s.drop (pos + len))).take (pos + esc.length)
            = s.take pos ++ esc := by
          rw [← List.append_assoc, ← hlen_take, List.take_left]
        have hdrop2 : (s.take pos ++ (esc ++ s.drop (pos + len))).drop (pos + esc.length)
            = s.drop (pos + len) := by
          rw [← List.append_assoc, ← hlen_take, List.drop_left]
        rw [htake2, hdrop2]
        have hvals_drop : values.drop index
            = values.getD index JSVal.undef :: values.drop (index + 1) := by
          rw [List.getD_eq_getElem values JSVal.undef hidx]
          exact (List.get_drop_eq_drop values index hidx).symm
        rw [hvals_drop]
        have hk : lastIndex + (pos - lastIndex) = pos := by omega
        have hbef' : ∀ j, j < pos - lastIndex →
            matchHead ((s.drop lastIndex).drop j) = none := by
          intro j hj
          rw [List.drop_drop]
          exact hgap (lastIndex + j) (by omega) (by omega)
        have hm' : matchHead ((s.drop lastIndex).drop (pos - lastIndex)) = some len := by
          rw [List.drop_drop, hk]
          exact hm
        rw [specLoop_advance (pos - lastIndex) (s.drop lastIndex) len _ _ hbef' hm']
        have hd2 : ((s.drop lastIndex).drop (pos - lastIndex)).drop len
            = s.drop (pos + len) := by
          rw [List.drop_drop, List.drop_drop,
            show lastIndex + (pos - lastIndex + len) = pos + len from by omega]
        rw [hd2]
        have hfinal : s.take lastIndex ++ (s.drop lastIndex).take (pos - lastIndex)
            = s.take pos := by
          rw [← List.take_add, hk]
        calc (s.take pos ++ esc)
              ++ specLoop (s.drop (pos + len)) (values.drop (index + 1))
            = (s.take lastIndex ++ (s.drop lastIndex).take (pos - lastIndex)) ++ esc
                ++ specLoop (s.drop (pos + len)) (values.drop (index + 1)) := by
              rw [hfinal]
          _ = s.take lastIndex ++ ((s.drop lastIndex).take (pos - lastIndex)
                ++ (esc ++ specLoop (s.drop (pos + len)) (values.drop (index + 1)))) := by
              simp [List.append_assoc]
      · rw [if_neg hidx]
        rw [renderLoop_out values fuel _ _ _ (by omega)]
        rw [List.drop_eq_nil_of_le (show values.length ≤ index from by omega),
          specLoop_nil_vals, List.take_append_drop]

/-! ### Counting the placeholders left in a rendered string -/

theorem countMatches_cons_nomatch (c : Char) (l : List Char)
    (h : matchHead (c :: l) = none) : countMatches (c :: l) = countMatches l := by
  match l with
  | [] => simp [countMatches]
  | d :: l' =>
    rw [matchHead_cons₂] at h
    have hcond : ¬ (c = '$' && isDigit d) = true := by
      intro hc
      rw [if_pos hc] at h
      exact absurd h (by simp)
    conv_lhs => rw [countMatches]
    rw [if_neg hcond]

theorem countMatches_match (s : List Char) (len : Nat) (h : matchHead s = some len) :
    countMatches s = countMatches (s.drop len) + 1 := by
  obtain ⟨d, cs, rfl, hd, rfl⟩ := matchHead_some s len h
  conv_lhs => rw [countMatches]
  rw [if_pos (by simp [hd])]
  rfl

theorem countMatches_append_no_dollar (xs t : List Char) (h : '$' ∉ xs) :
    countMatches (xs ++ t) = countMatches t := by
  induction xs with
  | nil => rfl
  | cons x xs ih =>
    have hx : ¬ x = '$' := fun hq => h (hq ▸ List.mem_cons_self x xs)
    rw [List.cons_append,
      countMatches_cons_nomatch x (xs ++ t) (matchHead_cons_ne_dollar x (xs ++ t) hx)]
    exact ih fun hm => h (List.mem_cons_of_mem x hm)

/-- The specification renderer never manufactures a new placeholder start:
prepending a character that did not start a match still does not start a
match after the tail has been substituted. -/
theorem matchHead_cons_specLoop_none (c : Char) (cs : List Char) (vs : List JSVal)
    (h : matchHead (c :: cs) = none) : matchHead (c :: specLoop cs vs) = none := by
  by_cases hc : c = '$'
  · subst hc
    match cs with
    | [] =>
      have hnil : specLoop [] vs = [] := by cases vs <;> simp [specLoop]
      rw [hnil]
      rfl
    | d :: cs' =>
      rw [matchHead_cons₂] at h
      have hd : isDigit d = false := by
        by_cases hdig : isDigit d
        · rw [if_pos (by simp [hdig])] at h
          exact absurd h (by simp)
        · simpa using hdig
      cases vs with
      | nil =>
        rw [specLoop_nil_vals, matchHead_cons₂]
        simp [hd]
      | cons v vs' =>
        cases hm : matchHead (d :: cs') with
        | some len =>
          rw [specLoop_cons_match (d :: cs') len v vs' hm]
          obtain ⟨ec, et, hesc, hecd, _⟩ := escapeVal_head v
          rw [hesc, List.cons_append, matchHead_cons₂]
          simp [hecd]
        | none =>
          rw [specLoop_cons_nomatch d cs' v vs' hm, matchHead_cons₂]
          simp [hd]
  · exact matchHead_cons_ne_dollar c _ hc

/-- Substituting values in scan order consumes exactly
`min (countMatches s) vs.length` placeholders and creates none. -/
theorem countMatches_specLoop (n : Nat) :
    ∀ s : List Char, ∀ vs : List JSVal, s.length ≤ n →
      (∀ v ∈ vs, '$' ∉ escapeVal v) →
      countMatches (specLoop s vs) + min (countMatches s) vs.length
        = countMatches s := by
  induction n with
  | zero =>
    intro s vs hs _
    have : s = [] := by
      cases s with
      | nil => rfl
      | cons c cs => simp at hs
    subst this
    simp [specLoop, countMatches]
  | succ n ihn =>
    intro s vs hs hv
    match s, vs with
    | [], vs => simp [specLoop, countMatches]
    | s, [] => rw [specLoop_nil_vals]; simp
    | c :: cs, v :: vs =>
      cases hm : matchHead (c :: cs) with
      | some len =>
        rw [specLoop_cons_match (c :: cs) len v vs hm]
        rw [countMatches_append_no_dollar _ _ (hv v (List.mem_cons_self v vs))]
        rw [countMatches_match (c :: cs) len hm]
        have hlen2 : 2 ≤ len := matchHead_two_le _ _ hm
        have hlen : len ≤ (c :: cs).length := matchHead_le_length _ _ hm
        have hrec := ihn ((c :: cs).drop len) vs
          (by rw [List.length_drop]; simp at hs ⊢; omega)
          (fun w hw => hv w (List.mem_cons_of_mem v hw))
        simp only [List.length_cons]
        omega
      | none =>
        rw [specLoop_cons_nomatch c cs v vs hm]
        rw [countMatches_cons_nomatch c (specLoop cs (v :: vs))
          (matchHead_cons_specLoop_none c cs (v :: vs) hm)]
        rw [countMatches_cons_nomatch c cs hm]
        exact ihn cs (v :: vs) (by simp at hs; omega) hv

/-! ## The claims -/

/-- C1, counterexample: a driver error carrying the unique-violation code
`23505` that arrives through the connect callback or through the
asynchronous error channel is NOT delivered as a DuplicateKey error — both
paths pass it through unchanged, contradicting the claim's "regardless of
which operation path received it". -/
theorem c1_counterexample :
    (translateConnectError { code := some "23505", msg := "dup" }).isDuplicateKey = false ∧
    translateConnectError { code := some "23505", msg := "dup" }
      = .passthrough { code := some "23505", msg := "dup" } ∧
    (translateAsyncError { code := some "23505", msg := "dup" }).isDuplicateKey = false := by
  decide

/-- C1 (amended): a driver error carrying the unique-violation code
`23505` is delivered as a DuplicateKey error on the query-execution path;
the connect callback and the asynchronous error channel translate only
their auth/network codes and pass a unique-violation error through
unchanged. -/
theorem c1_unique_violation_translation (e : DriverErr) (h : e.code = some "23505") :
    translateQueryError e = .duplicateKey e ∧
    translateConnectError e = .passthrough e ∧
    translateAsyncError e = .passthrough e := by
  unfold translateQueryError translateConnectError translateAsyncError
  rw [h]
  refine ⟨by simp, ?_, ?_⟩ <;> simp

theorem c1_unique_violation_translation_witness :
    ({ code := some "23505", msg := "dup" } : DriverErr).code = some "23505" ∧
    (translateQueryError { code := some "23505", msg := "dup" }
        = .duplicateKey { code := some "23505", msg := "dup" } ∧
      translateConnectError { code := some "23505", msg := "dup" }
        = .passthrough { code := some "23505", msg := "dup" } ∧
      translateAsyncError { code := some "23505", msg := "dup" }
        = .passthrough { code := some "23505", msg := "dup" }) :=
  ⟨rfl, c1_unique_violation_translation _ rfl⟩

/-- C2: on a non-AST query whose first attempt succeeds with a `null`
result and that is not already a retry, `executeQuery` re-invokes itself
once with the retry flag set (first conjunct: the outcome is exactly that
of the flagged retry on the remaining driver responses); a null first
attempt followed by a well-formed SELECT result resolves with that SELECT
result; two consecutive null results — or a null followed by any other
malformed result — fail with the unexpected-result error, whatever the
driver would have answered afterwards, so the retry fires at most once. -/
theorem c2_null_retry (ctx : QueryContext) (h : ctx.ast = false)
    (rest : List DriverResponse) :
    executeQuery ctx false (.ok .nullData :: rest) = executeQuery ctx true rest ∧
    (∀ r rows, r.command = "SELECT" → r.rows = some rows →
      executeQuery ctx false [.ok .nullData, .ok (.result r)]
        = some (.ok (.rows (some rows)))) ∧
    executeQuery ctx false (.ok .nullData :: .ok .nullData :: rest)
      = some (.error (.plain "unexpected return value from pg driver!")) ∧
    executeQuery ctx false (.ok .nullData :: .ok .other :: rest)
      = some (.error (.plain "unexpected return value from pg driver!")) := by
  refine ⟨by simp [executeQuery, h], ?_, by simp [executeQuery, h], by simp [executeQuery, h]⟩
  intro r rows h1 h2
  simp [executeQuery, h, shapeResult_select r h1, h2]

theorem c2_null_retry_witness :
    ({ sql := "select 1", values := [], ast := false, mode := none } : QueryContext).ast = false ∧
    executeQuery { sql := "select 1", values := [], ast := false, mode := none } false
        [.ok .nullData, .ok (.result { command := "SELECT", rows := some [⟨7⟩] })]
      = some (.ok (.rows (some [⟨7⟩]))) :=
  ⟨rfl, (c2_null_retry _ rfl [.ok (.result { command := "SELECT", rows := some [⟨7⟩] })]).2.1
    _ _ rfl rfl⟩

/-- C3: when the asynchronous driver error event fires while a query is
pending, the pending query fails with the translated error, the handle is
forcibly closed and the connection is Killed; every later query attempt on
that connection fails fast with the connection-ended condition and the
driver is not contacted (first component `false`), whatever the query and
whatever the driver would have answered. -/
theorem c3_async_error_kills (c : ConnState) (e : DriverErr) (q : Nat)
    (hp : c.pending = some q) :
    (onAsyncError c e).pendingFailedWith = some (translateAsyncError e) ∧
    (onAsyncError c e).state.killed = true ∧
    (onAsyncError c e).handleClosed = true ∧
    ∀ ctx responses,
      (attemptQuery (onAsyncError c e).state ctx responses).1 = false ∧
      (attemptQuery (onAsyncError c e).state ctx responses).2
        = some (.error (.plain "connection ended")) := by
  refine ⟨by simp [onAsyncError, hp], rfl, rfl, ?_⟩
  intro ctx responses
  simp [onAsyncError, attemptQuery]

theorem c3_async_error_kills_witness :
    sampleBusyConn.pending = some 3 ∧
    ((onAsyncError sampleBusyConn ⟨some "ECONNRESET", "reset"⟩).pendingFailedWith
        = some (translateAsyncError ⟨some "ECONNRESET", "reset"⟩) ∧
      (onAsyncError sampleBusyConn ⟨some "ECONNRESET", "reset"⟩).state.killed = true ∧
      (attemptQuery (onAsyncError sampleBusyConn ⟨some "ECONNRESET", "reset"⟩).state
          ⟨"select 1", [], false, none⟩ []).1 = false) := by
  have h := c3_async_error_kills sampleBusyConn ⟨some "ECONNRESET", "reset"⟩ 3 rfl
  exact ⟨rfl, h.1, h.2.1, (h.2.2.2 ⟨"select 1", [], false, none⟩ []).1⟩

/-- C4, counterexample: on `render("$2 $1", ["$1", "x"])` the claim
predicts scan-order substitution — `"$2"` becomes the escaped `"$1"`,
then the trailing `"$1"` becomes the escaped `"x"` — with no placeholder
left (two placeholders, two values). The code instead produces `''x'' $1`:
`sql.replace(match[0], …)` replaces the FIRST occurrence of the matched
text `"$1"`, which after the first substitution sits inside the freshly
inserted escaped literal, so the second value lands inside the first
value's quotes and the scanned placeholder survives in the result. -/
theorem c4_counterexample :
    renderSQLQuery ("$2 $1".data) [.str "$1", .str "x"] = "''x'' $1".data ∧
    renderSQLQuery ("$2 $1".data) [.str "$1", .str "x"]
      ≠ escapeVal (.str "$1") ++ ' ' :: escapeVal (.str "x") ∧
    matchHead ((renderSQLQuery ("$2 $1".data) [.str "$1", .str "x"]).drop 6)
      = some 2 := by
  refine ⟨by decide, by decide, by decide⟩

/-- C4 (amended): provided no literal-escaped value contains a dollar sign
(the implementation replaces the first occurrence in the current string of
the matched placeholder text, and only under this proviso does that first
occurrence always coincide with the scanned occurrence), `render`
substitutes the Nth placeholder encountered by left-to-right scan with the
literal-escaped Nth value — pairing by scan order, not by numeric suffix,
with the scan position adjusted by the length difference — leaves
placeholders beyond the supplied value count untouched (the result equals
the specification's scan-order substitution `specLoop`), and the result
contains no placeholders beyond those out of range: exactly
`countMatches sql - min (countMatches sql) values.length` remain. -/
theorem c4_render_scan_order (sql : List Char) (values : List JSVal)
    (h : ∀ v ∈ values, '$' ∉ escapeVal v) :
    renderSQLQuery sql values = specLoop sql values ∧
    countMatches (renderSQLQuery sql values) + min (countMatches sql) values.length
      = countMatches sql := by
  have h1 : renderSQLQuery sql values = specLoop sql values := by
    unfold renderSQLQuery
    have := renderLoop_eq_specLoop values h (sql.length + 1) sql 0 0
      (by intro q hq; omega) (Nat.zero_le _) (by omega)
    simpa using this
  refine ⟨h1, ?_⟩
  rw [h1]
  exact countMatches_specLoop sql.length sql values (le_refl _) h

theorem c4_render_scan_order_witness :
    (∀ v ∈ [JSVal.str "o'k", JSVal.num 5], '$' ∉ escapeVal v) ∧
    (renderSQLQuery ("select $1, $2, $9;".data) [JSVal.str "o'k", JSVal.num 5]
        = specLoop ("select $1, $2, $9;".data) [JSVal.str "o'k", JSVal.num 5] ∧
      countMatches
          (renderSQLQuery ("select $1, $2, $9;".data) [JSVal.str "o'k", JSVal.num 5])
          + min (countMatches ("select $1, $2, $9;".data))
              ([JSVal.str "o'k", JSVal.num 5].length)
        = countMatches ("select $1, $2, $9;".data)) :=
  ⟨by decide, c4_render_scan_order _ _ (by decide)⟩

/-- C5, counterexample: `"toString"` is not a supported lock mode — the
table's own keys are only `LOCK_WRITE` and `LOCK_EXCLUSIVE` — yet the JS
lookup `this.lockModes["toString"]` finds the truthy inherited
`Object.prototype.toString`, so `lock` does not fail through the callback:
it issues a LOCK statement whose mode phrase is the coerced native
function, contradicting the claim's "for any unsupported mode value, lock
fails with an InvalidArgument error and sends nothing to the database". -/
theorem c5_counterexample :
    lockModes "toString" ≠ .phrase "SHARE ROW EXCLUSIVE" ∧
    lockModes "toString" ≠ .phrase "ACCESS EXCLUSIVE" ∧
    lock none "accounts" "toString"
      ≠ .cbError "Invalid or not supported lock type «toString»!" ∧
    lock none "accounts" "toString"
      = .issued "LOCK TABLE \"accounts\" IN function toString() { [native code] } MODE;" := by
  refine ⟨by decide, by decide, by decide, by decide⟩

/-- C5 (amended): for both supported lock modes, `lock` issues exactly
`LOCK TABLE [schema.]table IN <mode phrase> MODE;` with the identifiers
escaped by the driver's identifier-escaping primitive, through the query
path. For a mode value whose table lookup is `undefined` — any name that
is neither a supported mode nor an inherited `Object.prototype` member —
`lock` reports the invalid-lock-type error (the InvalidArgument class of
the spec's taxonomy) through the callback and issues nothing. A mode value
naming an inherited `Object.prototype` member, however, passes the
truthiness check, and a statement embedding the coerced inherited member
as its mode phrase is issued. -/
theorem c5_lock_statement :
    (∀ schema table lt, lockModes lt = .missing →
      lock schema table lt = .cbError ("Invalid or not supported lock type «" ++ lt ++ "»!")) ∧
    (∀ lt n table, lockModes lt = .protoMember n → table ≠ "" →
      lock none table lt
        = .issued ("LOCK TABLE " ++ escapeIdentifier table ++ " IN "
            ++ protoMemberString n ++ " MODE;")) ∧
    (∀ table, table ≠ "" →
      lock none table "LOCK_WRITE"
        = .issued ("LOCK TABLE " ++ escapeIdentifier table ++ " IN SHARE ROW EXCLUSIVE MODE;") ∧
      lock none table "LOCK_EXCLUSIVE"
        = .issued ("LOCK TABLE " ++ escapeIdentifier table ++ " IN ACCESS EXCLUSIVE MODE;")) ∧
    (∀ s table, s ≠ "" → table ≠ "" →
      lock (some s) table "LOCK_WRITE"
        = .issued ("LOCK TABLE " ++ escapeIdentifier s ++ "." ++ escapeIdentifier table
            ++ " IN SHARE ROW EXCLUSIVE MODE;") ∧
      lock (some s) table "LOCK_EXCLUSIVE"
        = .issued ("LOCK TABLE " ++ escapeIdentifier s ++ "." ++ escapeIdentifier table
            ++ " IN ACCESS EXCLUSIVE MODE;")) := by
  have hid : ∀ t : String, t ≠ "" → escapeId (.str t) = .ok (escapeIdentifier t) := by
    intro t ht
    have hl : ¬ t.length = 0 := by
      intro hl
      apply ht
      cases t with
      | mk data =>
        simp [String.length] at hl
        subst hl
        rfl
    simp [escapeId, hl]
  refine ⟨?_, ?_, ?_, ?_⟩
  · intro schema table lt h
    unfold lock
    rw [h]
  · intro lt n table h ht
    unfold lock
    rw [h]
    simp [hid table ht, lookupString, String.append_assoc]
  · intro table ht
    refine ⟨?_, ?_⟩
    · unfold lock
      rw [lockModes_write]
      simp [hid table ht, lookupString, String.append_assoc]
    · unfold lock
      rw [lockModes_exclusive]
      simp [hid table ht, lookupString, String.append_assoc]
  · intro s table hs ht
    refine ⟨?_, ?_⟩
    · unfold lock
      rw [lockModes_write]
      simp [hid table ht, hid s hs, hs, lookupString, Except.map, String.append_assoc]
    · unfold lock
      rw [lockModes_exclusive]
      simp [hid table ht, hid s hs, hs, lookupString, Except.map, String.append_assoc]

theorem c5_lock_statement_witness :
    lockModes "LOCK_READ" = .missing ∧ lockModes "valueOf" = .protoMember "valueOf" ∧
    "accounts" ≠ "" ∧ "pub" ≠ "" ∧
    (lock none "accounts" "LOCK_READ"
      = .cbError "Invalid or not supported lock type «LOCK_READ»!" ∧
     lock none "accounts" "valueOf"
      = .issued "LOCK TABLE \"accounts\" IN function valueOf() { [native code] } MODE;" ∧
     lock none "accounts" "LOCK_WRITE"
      = .issued "LOCK TABLE \"accounts\" IN SHARE ROW EXCLUSIVE MODE;" ∧
     lock (some "pub") "accounts" "LOCK_EXCLUSIVE"
      = .issued "LOCK TABLE \"pub\".\"accounts\" IN ACCESS EXCLUSIVE MODE;") := by
  have h := c5_lock_statement
  refine ⟨rfl, rfl, by decide, by decide, ?_, ?_, ?_, ?_⟩
  · have := h.1 none "accounts" "LOCK_READ" rfl
    simpa using this
  · have := h.2.1 "valueOf" "valueOf" "accounts" rfl (by decide)
    rw [this]
    rfl
  · have := (h.2.2.1 "accounts" (by decide)).1
    rw [this]
    rfl
  · have := (h.2.2.2 "pub" "accounts" (by decide) (by decide)).2
    rw [this]
    rfl

/-- C6: shaping of a successful, non-AST, well-formed tagged result: a
SELECT-tagged result resolves with its (possibly empty, present — not
null) row array; an INSERT-tagged result resolves with the first row when
one was returned and with the JS `null` (an absent value, not an error)
when the row array is empty or missing; any other command tag resolves
with the raw result object. -/
theorem c6_result_shaping (ctx : QueryContext) (h : ctx.ast = false)
    (rest : List DriverResponse) (dontRetry : Bool) :
    (∀ r rows, r.command = "SELECT" → r.rows = some rows →
      executeQuery ctx dontRetry (.ok (.result r) :: rest)
        = some (.ok (.rows (some rows)))) ∧
    (∀ r x xs, r.command = "INSERT" → r.rows = some (x :: xs) →
      executeQuery ctx dontRetry (.ok (.result r) :: rest)
        = some (.ok (.row (some x)))) ∧
    (∀ r, r.command = "INSERT" → r.rows = some [] ∨ r.rows = none →
      executeQuery ctx dontRetry (.ok (.result r) :: rest)
        = some (.ok (.row none))) ∧
    (∀ r, r.command ≠ "SELECT" → r.command ≠ "INSERT" →
      executeQuery ctx dontRetry (.ok (.result r) :: rest)
        = some (.ok (.raw (.result r)))) := by
  refine ⟨?_, ?_, ?_, ?_⟩
  · intro r rows h1 h2
    simp [executeQuery, h, shapeResult_select r h1, h2]
  · intro r x xs h1 h2
    simp [executeQuery, h, shapeResult_insert r h1, h2]
  · intro r h1 h2
    rcases h2 with h2 | h2 <;> simp [executeQuery, h, shapeResult_insert r h1, h2]
  · intro r h1 h2
    simp [executeQuery, h, shapeResult_default r h1 h2]

theorem c6_result_shaping_witness :
    ({ sql := "q", values := [], ast := false, mode := none } : QueryContext).ast = false ∧
    (executeQuery { sql := "q", values := [], ast := false, mode := none } false
        [.ok (.result { command := "SELECT", rows := some [] })]
      = some (.ok (.rows (some []))) ∧
     executeQuery { sql := "q", values := [], ast := false, mode := none } false
        [.ok (.result { command := "INSERT", rows := some [⟨1⟩, ⟨2⟩] })]
      = some (.ok (.row (some ⟨1⟩))) ∧
     executeQuery { sql := "q", values := [], ast := false, mode := none } false
        [.ok (.result { command := "INSERT", rows := some [] })]
      = some (.ok (.row none)) ∧
     executeQuery { sql := "q", values := [], ast := false, mode := none } false
        [.ok (.result { command := "UPDATE", rows := none })]
      = some (.ok (.raw (.result { command := "UPDATE", rows := none })))) := by
  have h := c6_result_shaping { sql := "q", values := [], ast := false, mode := none } rfl [] false
  exact ⟨rfl,
    h.1 _ [] rfl rfl,
    h.2.1 _ ⟨1⟩ [⟨2⟩] rfl rfl,
    h.2.2.1 _ rfl (Or.inl rfl),
    h.2.2.2 _ (by decide) (by decide)⟩

/-- C7: `createTransaction` on an Ended or Killed connection rejects
immediately with the connection-ended error, leaving the state unchanged
and issuing nothing (the outcome carries no query context, so the driver
is not contacted); on a live connection it sets the transaction flags,
detaches the connection from the pool and hands the
`start transaction;` context, tagged with mode `transaction`, to the
query path. -/
theorem c7_create_transaction (c : ConnState) :
    (c.ended = true ∨ c.killed = true →
      createTransaction c
        = (c, .error (.plain "Cannot start transaction, the connection has ended!"))) ∧
    (c.ended = false → c.killed = false →
      (createTransaction c).1.transactionOpen = true ∧
      (createTransaction c).1.isTransaction = true ∧
      (createTransaction c).1.inPool = false ∧
      (createTransaction c).2
        = .ok { sql := "start transaction;", values := [], ast := false,
                mode := some "transaction" }) := by
  constructor
  · intro h
    rcases h with h | h <;> simp [createTransaction, h]
  · intro h1 h2
    simp [createTransaction, h1, h2]

theorem c7_create_transaction_witness :
    (sampleKilledConn.ended = true ∨ sampleKilledConn.killed = true) ∧
    createTransaction sampleKilledConn
      = (sampleKilledConn,
          .error (.plain "Cannot start transaction, the connection has ended!")) ∧
    sampleIdleConn.ended = false ∧
    (createTransaction sampleIdleConn).2
      = .ok ⟨"start transaction;", [], false, some "transaction"⟩ := by
  refine ⟨Or.inr rfl, ?_, rfl, ?_⟩
  · exact (c7_create_transaction _).1 (Or.inr rfl)
  · exact ((c7_create_transaction _).2 rfl rfl).2.2.2

/-- C8: `end()` on a live connection requests a close of the driver handle
and resolves exactly at the first `'end'` event the handle emits — never
before an `'end'` confirmation, and not at all if none comes; on an
already-Killed connection it resolves as a benign no-op, not an error,
without touching the handle. -/
theorem c8_graceful_end (c : ConnState) (events : List HandleEvent) :
    (c.killed = true → connEnd c events = (c, .noopResolved)) ∧
    (c.killed = false →
      connEnd c events = ({ c with ended := true }, .closeRequested (firstEndIndex events)) ∧
      (firstEndIndex events = none ↔ HandleEvent.endEvt ∉ events) ∧
      ∀ i, firstEndIndex events = some i →
        events[i]? = some .endEvt ∧ ∀ j < i, events[j]? ≠ some .endEvt) := by
  constructor
  · intro h
    simp [connEnd, h]
  · intro h
    exact ⟨by simp [connEnd, h], firstEndIndex_none_iff events,
      fun i hi => firstEndIndex_some events i hi⟩

theorem c8_graceful_end_witness :
    sampleKilledConn.killed = true ∧
    connEnd sampleKilledConn [.otherEvt] = (sampleKilledConn, .noopResolved) ∧
    sampleIdleConn.killed = false ∧
    connEnd sampleIdleConn [.otherEvt, .endEvt]
      = (⟨true, false, false, false, true, true, none⟩, .closeRequested (some 1)) := by
  refine ⟨rfl, ?_, rfl, ?_⟩
  · exact (c8_graceful_end _ [.otherEvt]).1 rfl
  · have := ((c8_graceful_end sampleIdleConn [.otherEvt, .endEvt]).2 rfl).1
    simpa [firstEndIndex, sampleIdleConn] using this

/-- C9: `escapeId` on any non-string input, or on the empty string, fails
synchronously — the error is thrown straight out of the call (the
`Except.error` returned by the function itself), not reported through the
asynchronous result channel — with the `Cannot escape id` message built
from the input's string coercion. -/
theorem c9_escape_id_throws (v : JSVal) (h : typeString v = false ∨ v = .str "") :
    escapeId v = .error (.plain ("Cannot escape id «" ++ jsToString v ++ "»!")) := by
  rcases h with h | h
  · cases v <;> simp_all [typeString, escapeId]
  · subst h
    simp [escapeId, jsToString]

theorem c9_escape_id_throws_witness :
    (typeString (.num 7) = false ∨ JSVal.num 7 = .str "") ∧
    escapeId (.num 7) = .error (.plain "Cannot escape id «7»!") ∧
    (typeString (.str "") = false ∨ JSVal.str "" = .str "") ∧
    escapeId (.str "") = .error (.plain "Cannot escape id «»!") := by
  refine ⟨Or.inl rfl, ?_, Or.inr rfl, ?_⟩
  · have := c9_escape_id_throws (.num 7) (Or.inl rfl)
    simpa [jsToString] using this
  · have := c9_escape_id_throws (.str "") (Or.inr rfl)
    simpa [jsToString] using this

/-- C10: on a query context whose AST-origin flag is set, any successful
driver response — the `null` result included — resolves as the raw driver
result, before the shaping, retry and unexpected-result branches are even
reached; the outcome does not depend on the remaining driver responses or
on the retry flag, so the null-result retry and the UnexpectedResult
failure can never fire for AST-origin queries. -/
theorem c10_ast_raw_passthrough (ctx : QueryContext) (h : ctx.ast = true)
    (d : DriverData) (rest : List DriverResponse) (dontRetry : Bool) :
    executeQuery ctx dontRetry (.ok d :: rest) = some (.ok (.raw d)) := by
  simp [executeQuery, h]

theorem c10_ast_raw_passthrough_witness :
    ({ sql := "q", values := [], ast := true, mode := none } : QueryContext).ast = true ∧
    executeQuery { sql := "q", values := [], ast := true, mode := none } false
        [.ok .nullData, .ok .nullData]
      = some (.ok (.raw .nullData)) :=
  ⟨rfl, c10_ast_raw_passthrough _ rfl .nullData [.ok .nullData] false⟩

end PostgresConnection
